import Mathlib

/-!
# Verification of the abslw binary structure decoders

Shallow embedding of the PE and ZIP structural decoders of this repository
(`src/hazel/zip/zip.cc`, `src/belawin/pe/file.cc`, `include/bela/pe.hpp`,
`internal/image.hpp`, the overlay reader) together with proofs about the
behaviour of the embedded code.

Byte sources and buffers are `List Nat` (each element a byte value `< 256`);
machine integers are `Nat`/`Int` with explicit `% 2^w` where the source's
fixed-width arithmetic can wrap.  Fallible operations return `Option`/`Except`.
-/

set_option maxHeartbeats 1000000

namespace Abslw

/-- Byte `i` of a buffer (reduced mod 256: a `uint8_t` buffer holds only
byte values).  Every use below is guarded so that `i` is within the buffer
exactly when the C++ code's own read is within its buffer. -/
def byteAt (b : List Nat) (i : Nat) : Nat := b.getD i 0 % 256

/-- Little-endian decode of `n` bytes starting at `off`
(`bela::readle` / `bela::cast_fromle`). -/
def readLE (b : List Nat) (off : Nat) : Nat → Nat
  | 0 => 0
  | n + 1 => byteAt b off + 256 * readLE b (off + 1) n

/-- 2-byte little-endian read. -/
def le16 (b : List Nat) (off : Nat) : Nat := readLE b off 2

/-- 4-byte little-endian read. -/
def le32 (b : List Nat) (off : Nat) : Nat := readLE b off 4

/-- 8-byte little-endian read. -/
def le64 (b : List Nat) (off : Nat) : Nat := readLE b off 8

/-- `len` bytes of `f` starting at `off` (an in-memory view of a
successful `ReadAt(buf, len, off)`). -/
def slice (f : List Nat) (off len : Nat) : List Nat := (f.drop off).take len

/-- The last `len` bytes of `f`: the block `ReadAt(buf, blen, size - blen)`
fills in `Reader::readDirectoryEnd`. -/
def lastSlice (f : List Nat) (len : Nat) : List Nat := f.drop (f.length - len)

/-- `static_cast<int64_t>` of an unsigned 64-bit value. -/
def toInt64 (n : Nat) : Int := if n < 2 ^ 63 then (n : Int) else (n : Int) - 2 ^ 64

namespace Zip

/-- Error outcomes of the ZIP directory decoder (`bela::error_code` values
set in `src/hazel/zip/zip.cc`, made into distinct constructors). -/
inductive ZipErr where
  /-- "zip: not a valid zip file" (bad signature / bad structure). -/
  | notValid : ZipErr
  /-- "zip: invalid comment length". -/
  | invalidComment : ZipErr
  /-- "zip: TOC declares impossible ... files in ... byte zip". -/
  | tocImpossible : ZipErr
  /-- A short read from the byte source (`ReadFull` hit EOF). -/
  | ioError : ZipErr
deriving Repr, DecidableEq

/-- The `directoryEnd` record filled by `Reader::readDirectoryEnd` /
`Reader::readDirectory64End` (declared in `hazel/zip.hpp`). -/
structure DirectoryEnd where
  diskNbr : Nat := 0
  dirDiskNbr : Nat := 0
  dirRecordsThisDisk : Nat := 0
  directoryRecords : Nat := 0
  directorySize : Nat := 0
  directoryOffset : Nat := 0
  commentLen : Nat := 0
  comment : List Nat := []
deriving Repr, DecidableEq

/-- `b[i..i+4] == "PK\x05\x06"`: the end-of-central-directory signature test
inside `findSignatureInBlock` (zip.cc:67). -/
def sigAt (b : List Nat) (i : Nat) : Bool :=
  byteAt b i == 80 && byteAt b (i + 1) == 75 && byteAt b (i + 2) == 5 && byteAt b (i + 3) == 6

/-- The candidate validation of `findSignatureInBlock` (zip.cc:68-69): the
declared comment length `n` (2 bytes at `i + 20`) must satisfy
`n + directoryEndLen + i <= b.size()`. -/
def commentLenOk (b : List Nat) (i : Nat) : Bool :=
  byteAt b (i + 20) + 256 * byteAt b (i + 21) + 22 + i ≤ b.length

/-- The downward scan of `findSignatureInBlock` from index `i` to `0`
(zip.cc:66-73); `-1` when no validated signature is found. -/
def findSigFrom (b : List Nat) : Nat → Int
  | 0 => if sigAt b 0 && commentLenOk b 0 then 0 else -1
  | i + 1 => if sigAt b (i + 1) && commentLenOk b (i + 1) then (i + 1 : Nat) else findSigFrom b i

/-- `findSignatureInBlock` (zip.cc:65-75): scan backward from
`b.size() - directoryEndLen` for a validated EOCD signature. -/
def findSignatureInBlock (b : List Nat) : Int :=
  if b.length < 22 then -1 else findSigFrom b (b.length - 22)

/-- The EOCD-locating loop of `Reader::readDirectoryEnd` (zip.cc:124-146),
over `offrange[] = {1024, 65 * 1024}` (the loop is unrolled for its two
iterations).  Returns the absolute offset `directoryEndOffset` of the record
and the tail of the block from the signature on (the reader `b`), or `none`
for "zip: not a valid zip file". -/
def findDirectoryEnd (f : List Nat) : Option (Nat × List Nat) :=
  let n := f.length
  let blen1 := min 1024 n
  let b1 := lastSlice f blen1
  let p1 := findSignatureInBlock b1
  if 0 ≤ p1 then some (n - blen1 + p1.toNat, b1.drop p1.toNat)
  else if blen1 = n then none
  else
    let blen2 := min (65 * 1024) n
    let b2 := lastSlice f blen2
    let p2 := findSignatureInBlock b2
    if 0 ≤ p2 then some (n - blen2 + p2.toNat, b2.drop p2.toNat)
    else none

/-- The fixed-field parse of the located EOCD record (zip.cc:147-159): the
reader discards the 4 signature bytes and then reads the 16/32-bit fields and
the comment. -/
def eocdRecord (b : List Nat) : DirectoryEnd :=
  { diskNbr := le16 b 4
    dirDiskNbr := le16 b 6
    dirRecordsThisDisk := le16 b 8
    directoryRecords := le16 b 10
    directorySize := le32 b 12
    directoryOffset := le32 b 16
    commentLen := le16 b 20
    comment := slice b 22 (le16 b 20) }

/-- The Zip64 escalation condition of zip.cc:160:
`d.directoryRecords == 0xFFFF || d.directorySize == 0xFFFF ||
d.directoryOffset == 0xFFFFFFFF`. -/
def zip64Trigger (d : DirectoryEnd) : Bool :=
  d.directoryRecords == 0xFFFF || d.directorySize == 0xFFFF || d.directoryOffset == 0xFFFFFFFF

/-- `Reader::findDirectory64End` (zip.cc:99-120): read the fixed 20-byte
Zip64 locator immediately preceding the EOCD; `-1` when absent or invalid,
otherwise `static_cast<int64_t>` of its 8-byte record offset. -/
def findDirectory64End (f : List Nat) (directoryEndOffset : Nat) : Int :=
  if directoryEndOffset < 20 then -1
  else
    let buf := slice f (directoryEndOffset - 20) 20
    if le32 buf 0 ≠ 0x07064b50 then -1
    else if le32 buf 4 ≠ 0 then -1
    else if le32 buf 16 ≠ 1 then -1
    else toInt64 (le64 buf 8)

/-- `Reader::readDirectory64End` (zip.cc:76-97): read the 56-byte Zip64
end-of-central-directory record at `offset` and overwrite `d`'s fields.

The source's reader consumes the 4 signature bytes and then `Discard(16)`,
so each field is read 4 bytes past its nominal position in the record and
the final 8-byte read for `directoryOffset` needs bytes 52..60 of the
56-byte buffer: its upper 4 bytes come from memory past the buffer.  `junk`
(< 2^32) stands for the value of those 4 out-of-buffer bytes. -/
def readDirectory64End (f : List Nat) (offset : Int) (junk : Nat) (d : DirectoryEnd) :
    Option DirectoryEnd :=
  if offset < 0 ∨ f.length < offset.toNat + 56 then none
  else
    let buf := slice f offset.toNat 56
    if le32 buf 0 ≠ 0x06064b50 then none
    else some { d with
      diskNbr := le32 buf 20
      dirDiskNbr := le32 buf 24
      dirRecordsThisDisk := le64 buf 28
      directoryRecords := le64 buf 36
      directorySize := le64 buf 44
      directoryOffset := le32 buf 52 + 2 ^ 32 * junk }

/-- The final validation of `Reader::readDirectoryEnd` (zip.cc:170-173):
`auto o = static_cast<int64_t>(d.directoryOffset); o < 0 || 0 >= size`
(the second disjunct compares `0`, not `o`, against `size`). -/
def directoryEndOffsetBad (d : DirectoryEnd) (size : Nat) : Bool :=
  toInt64 d.directoryOffset < 0 || 0 ≥ (size : Int)

/-- `Reader::readDirectoryEnd` (zip.cc:123-175): locate the EOCD, decode its
fields and comment, escalate to the Zip64 record when `zip64Trigger` holds,
and validate the resulting directory offset. -/
def readDirectoryEnd (f : List Nat) (junk : Nat) : Except ZipErr DirectoryEnd :=
  match findDirectoryEnd f with
  | none => .error .notValid
  | some (directoryEndOffset, b) =>
    let d0 := eocdRecord b
    if d0.commentLen > b.length - 22 then .error .invalidComment
    else
      let d1 :=
        if zip64Trigger d0 then
          let p := findDirectory64End f directoryEndOffset
          if p > 0 then readDirectory64End f p junk d0 else some d0
        else some d0
      match d1 with
      | none => .error .notValid
      | some d =>
        if directoryEndOffsetBad d f.length then .error .notValid else .ok d

/-- Modelled from the spec: the two timestamp conversions of `bela/time.hpp`
(`bela::FromDosDateTime`, `bela::FromWindowsPreciseTime`), which are not under
`src/`.  A `bela::Time` is represented by its Unix-seconds value (`Int`), so
`bela::FromUnixSeconds`/`bela::ToUnixSeconds` are the identity; the two
remaining conversions are kept abstract as parameters and every theorem holds
for an arbitrary choice. -/
structure TimeConv where
  fromDosDateTime : Nat → Nat → Int
  fromWindowsPreciseTime : Nat → Int

/-- The per-entry record `hazel::zip::File` filled by `readDirectoryHeader`
(the fields that function assigns). -/
structure ZFile where
  cversion : Nat
  rversion : Nat
  flags : Nat
  method : Nat
  crc32 : Nat
  compressedSize : Nat
  uncompressedSize : Nat
  externalAttrs : Nat
  position : Nat
  name : List Nat
  extra : List Nat
  comment : List Nat
  utf8 : Bool
  time : Int
  aesVersion : Nat
  aesStrength : Nat
deriving Repr, DecidableEq

/-- The mutable state of the extra-field loop of `readDirectoryHeader`
(zip.cc:216-304): the entry being filled, the three "this 32-bit field was
sentinel-valued" flags, and the local `modified` time. -/
structure ExtraState where
  file : ZFile
  needUSize : Bool
  needSize : Bool
  needOffset : Bool
  modified : Int
deriving Repr, DecidableEq

/-- Stage three of the Zip64 extra-field body (zip.cc:248-255): when the
offset flag is set, an 8-byte offset is consumed (or the too-short body is
"zip: not a valid zip file"). -/
def zip64FieldO (fb : List Nat) (st : ExtraState) : Except ZipErr ExtraState :=
  if st.needOffset then
    if fb.length < 8 then .error .notValid
    else .ok { st with needOffset := false
                       file := { st.file with position := le64 fb 0 } }
  else .ok st

/-- Stage two of the Zip64 extra-field body (zip.cc:240-247): the 8-byte
compressed size, when its flag is set. -/
def zip64FieldS (fb : List Nat) (st : ExtraState) : Except ZipErr ExtraState :=
  if st.needSize then
    if fb.length < 8 then .error .notValid
    else zip64FieldO (fb.drop 8)
      { st with needSize := false
                file := { st.file with compressedSize := le64 fb 0 } }
  else zip64FieldO fb st

/-- The Zip64 extra-field body (tag 0x0001, zip.cc:231-257): consume one
8-byte value per still-set need flag, in the fixed order uncompressed size,
compressed size, offset; a body too short for a needed value is
"zip: not a valid zip file". -/
def zip64Field (fb : List Nat) (st : ExtraState) : Except ZipErr ExtraState :=
  if st.needUSize then
    if fb.length < 8 then .error .notValid
    else zip64FieldS (fb.drop 8)
      { st with needUSize := false
                file := { st.file with uncompressedSize := le64 fb 0 } }
  else zip64FieldS fb st

/-- The inner attribute loop of the NTFS extra field (tag 0x000a,
zip.cc:263-274), structurally recursive on a fuel that bounds the number of
iterations (each iteration consumes at least 4 bytes, so `fb.length` fuel is
always enough): walk (tag, size, body) attribute triples; an attribute with
tag 1 and size 24 carries the 8-byte modification filetime. -/
def ntfsAttrsGo (tc : TimeConv) : Nat → List Nat → Int → Int
  | 0, _, modified => modified
  | fuel + 1, fb, modified =>
    if fb.length < 4 then modified
    else
      let attrTag := le16 fb 0
      let attrSize := le16 fb 2
      let rest := fb.drop 4
      if rest.length < attrSize then modified
      else if attrTag ≠ 1 ∨ attrSize ≠ 24 then modified
      else ntfsAttrsGo tc fuel (rest.drop attrSize)
        (tc.fromWindowsPreciseTime (le64 (rest.take attrSize) 0))

/-- The NTFS attribute loop at its entry point. -/
def ntfsAttrs (tc : TimeConv) (fb : List Nat) (modified : Int) : Int :=
  ntfsAttrsGo tc fb.length fb modified

/-- The extra-field chain walk of `readDirectoryHeader` (zip.cc:224-304),
structurally recursive on a fuel that bounds the number of iterations:
(tag, length, body) triples; Zip64, NTFS, UNIX / Info-ZIP UNIX, extended
timestamp and WinZip AES fields are interpreted, everything else is skipped
by its declared length. -/
def parseExtraGo (tc : TimeConv) : Nat → List Nat → ExtraState →
    Except ZipErr ExtraState
  | 0, _, st => .ok st
  | fuel + 1, extra, st =>
  if extra.length < 4 then .ok st
  else
    let fieldTag := le16 extra 0
    let fieldSize := le16 extra 2
    let rest := extra.drop 4
    if rest.length < fieldSize then .ok st
    else
      let fb := rest.take fieldSize
      let rest2 := rest.drop fieldSize
      if fieldTag = 0x0001 then
        match zip64Field fb st with
        | .error e => .error e
        | .ok st' => parseExtraGo tc fuel rest2 st'
      else if fieldTag = 0x000a then
        let st' :=
          if fb.length < 4 then st
          else { st with modified := ntfsAttrs tc (fb.drop 4) st.modified }
        parseExtraGo tc fuel rest2 st'
      else if fieldTag = 0x000d ∨ fieldTag = 0x5855 then
        let st' :=
          if fb.length < 8 then st
          else { st with file := { st.file with time := (le32 fb 4 : Int) } }
        parseExtraGo tc fuel rest2 st'
      else if fieldTag = 0x5455 then
        let st' :=
          if fb.length < 5 ∨ byteAt fb 0 % 2 = 0 then st
          else { st with modified := (le32 fb 1 : Int) }
        parseExtraGo tc fuel rest2 st'
      else if fieldTag = 0x9901 then
        let st' :=
          if fb.length < 7 then st
          else { st with file := { st.file with
            aesVersion := le16 fb 0
            aesStrength := byteAt fb 4
            method := le16 fb 5 } }
        parseExtraGo tc fuel rest2 st'
      else parseExtraGo tc fuel rest2 st

/-- The extra-field chain walk at its entry point (`extra.length` fuel is
always enough: each iteration of the source loop consumes at least 4
bytes). -/
def parseExtraLoop (tc : TimeConv) (extra : List Nat) (st : ExtraState) :
    Except ZipErr ExtraState :=
  parseExtraGo tc extra.length extra st

/-- `readDirectoryHeader` (zip.cc:183-314): decode one 46-byte central
directory header plus its variable name/extra/comment from the stream `s`,
run the extra-field chain, and apply the timestamp precedence of
zip.cc:305-308 (`file.time = FromDosDateTime(...); if modified != 0 then
file.time = modified`).  Returns the decoded entry and the rest of the
stream. -/
def readDirectoryHeader (tc : TimeConv) (s : List Nat) : Except ZipErr (ZFile × List Nat) :=
  if s.length < 46 then .error .ioError
  else
    let buf := s.take 46
    if le32 buf 0 ≠ 0x02014b50 then .error .notValid
    else
      let filenameLen := le16 buf 28
      let extraLen := le16 buf 30
      let commentLen := le16 buf 32
      let totallen := filenameLen + extraLen + commentLen
      let s2 := s.drop 46
      if s2.length < totallen then .error .ioError
      else
        let extraB := slice s2 filenameLen extraLen
        let f0 : ZFile :=
          { cversion := le16 buf 4
            rversion := le16 buf 6
            flags := le16 buf 8
            method := le16 buf 10
            crc32 := le32 buf 16
            compressedSize := le32 buf 20
            uncompressedSize := le32 buf 24
            externalAttrs := le32 buf 38
            position := le32 buf 42
            name := s2.take filenameLen
            extra := extraB
            comment := slice s2 (filenameLen + extraLen) commentLen
            utf8 := (le16 buf 8) &&& 0x800 != 0
            time := 0
            aesVersion := 0
            aesStrength := 0 }
        let st0 : ExtraState :=
          { file := f0
            needUSize := f0.uncompressedSize == 0xFFFFFFFF
            needSize := f0.compressedSize == 0xFFFFFFFF
            needOffset := f0.position == 0xFFFFFFFF
            modified := 0 }
        match parseExtraLoop tc extraB st0 with
        | .error e => .error e
        | .ok st =>
          let dosTime := tc.fromDosDateTime (le16 buf 14) (le16 buf 12)
          let finalTime := if st.modified ≠ 0 then st.modified else dosTime
          if st.needSize || st.needOffset then .error .notValid
          else .ok ({ st.file with time := finalTime }, s.drop (46 + totallen))

/-- The per-entry loop of `Reader::Initialize` (zip.cc:333-341): decode
`n` directory headers sequentially, accumulating the entries and the
aggregate sizes (64-bit accumulators). -/
def readEntriesLoop (tc : TimeConv) (s : List Nat) (n : Nat)
    (acc : List ZFile) (usum csum : Nat) : Except ZipErr (List ZFile × Nat × Nat) :=
  match n with
  | 0 => .ok (acc.reverse, usum, csum)
  | n + 1 =>
    match readDirectoryHeader tc s with
    | .error e => .error e
    | .ok (file, s') =>
      readEntriesLoop tc s' n (file :: acc)
        ((usum + file.uncompressedSize) % 2 ^ 64) ((csum + file.compressedSize) % 2 ^ 64)

/-- The decoded archive model built by `Reader::Initialize`. -/
structure ReaderState where
  files : List ZFile
  comment : List Nat
  uncompressedSize : Nat
  compressedSize : Nat
deriving Repr, DecidableEq

/-- `Reader::Initialize` (zip.cc:316-343): read the directory end record,
reject a declared record count exceeding `size / fileHeaderLen` (30 bytes)
before any per-entry read, then decode the declared number of entries from
the directory offset. -/
def readerInit (tc : TimeConv) (f : List Nat) (junk : Nat) : Except ZipErr ReaderState :=
  match readDirectoryEnd f junk with
  | .error e => .error e
  | .ok d =>
    if d.directoryRecords > f.length / 30 then .error .tocImpossible
    else
      match readEntriesLoop tc (f.drop d.directoryOffset) d.directoryRecords [] 0 0 with
      | .error e => .error e
      | .ok (files, us, cs) =>
        .ok { files := files, comment := d.comment, uncompressedSize := us, compressedSize := cs }

end Zip

namespace Pe

/-- Error outcomes of the PE decoder paths embedded here. -/
inductive PeErr where
  /-- A short read / failed seek (`fread`/`ReadFile` failure). -/
  | ioError : PeErr
  /-- "Invalid PE COFF file signature of ..." -/
  | badSignature : PeErr
deriving Repr, DecidableEq

/-- `bela::pe::FileHeader` (the COFF file header). -/
structure FileHeader where
  machine : Nat
  numberOfSections : Nat
  timeDateStamp : Nat
  pointerToSymbolTable : Nat
  numberOfSymbols : Nat
  sizeOfOptionalHeader : Nat
  characteristics : Nat
deriving Repr, DecidableEq

/-- `sizeof(OptionalHeader64)` under `#pragma pack(push, 1)` (bela/pe.hpp:180-211):
240 bytes. -/
def sizeofOptionalHeader64 : Nat := 240

/-- What `File::NewFile` has established when it sets `is64bit`
(src/belawin/pe/file.cc:79). -/
structure NewFileResult where
  base : Nat
  fh : FileHeader
  is64bit : Bool
deriving Repr, DecidableEq

/-- The COFF file-header read and 64-bit classification of `File::NewFile`
(file.cc:70-79): read the 20-byte `FileHeader` at `base` and set
`is64bit = (fh.SizeOfOptionalHeader == sizeof(OptionalHeader64))`. -/
def readFileHeaderAt (f : List Nat) (base : Nat) : Except PeErr NewFileResult :=
  if f.length < base + 20 then .error .ioError
  else
    let fh : FileHeader :=
      { machine := le16 f base
        numberOfSections := le16 f (base + 2)
        timeDateStamp := le32 f (base + 4)
        pointerToSymbolTable := le32 f (base + 8)
        numberOfSymbols := le32 f (base + 12)
        sizeOfOptionalHeader := le16 f (base + 16)
        characteristics := le16 f (base + 18) }
    .ok { base := base, fh := fh, is64bit := fh.sizeOfOptionalHeader == sizeofOptionalHeader64 }

/-- `File::NewFile` (src/belawin/pe/file.cc:36-87) up to and including the
`is64bit` assignment at line 79: read the 64-byte DOS header; when its magic
is 'MZ' follow `e_lfanew`, demand the 4-byte "PE\0\0" signature and place the
COFF header after it, otherwise treat the file as a headerless COFF object at
offset 0; then read the `FileHeader` and classify 32/64-bit from its
`SizeOfOptionalHeader` alone (the optional header itself is never read).
The source then loads the string table and COFF symbols
(`readStringTable`/`readCOFFSymbols`, defined outside `src/`); their failures
abort `NewFile` but happen after — and never modify — the `is64bit`
classification embedded here. -/
def newFileCore (f : List Nat) : Except PeErr NewFileResult :=
  if f.length < 64 then .error .ioError
  else if le16 f 0 = 0x5A4D then
    let signoff := le32 f 60
    if f.length < signoff + 4 then .error .ioError
    else if byteAt f signoff = 80 ∧ byteAt f (signoff + 1) = 69 ∧
        byteAt f (signoff + 2) = 0 ∧ byteAt f (signoff + 3) = 0 then
      readFileHeaderAt f (signoff + 4)
    else .error .badSignature
  else readFileHeaderAt f 0

/-- `bela::pe::Section` (the fields the embedded paths use). -/
structure Section where
  virtualSize : Nat
  virtualAddress : Nat
  size : Nat
  offset : Nat
deriving Repr, DecidableEq

/-- `bela::pe::DataDirectory`. -/
structure DataDirectory where
  virtualAddress : Nat
  size : Nat
deriving Repr, DecidableEq

/-- The membership test of `File::getSection` (bela/pe.hpp:472):
`s.VirtualAddress <= dd->VirtualAddress && dd->VirtualAddress <
s.VirtualAddress + s.VirtualSize` (the sum is 32-bit arithmetic). -/
def containsRVA (s : Section) (rva : Nat) : Bool :=
  s.virtualAddress ≤ rva && rva < (s.virtualAddress + s.virtualSize) % 2 ^ 32

/-- `File::getSection` (bela/pe.hpp:468-477): linear scan, first section
whose `[VirtualAddress, VirtualAddress+VirtualSize)` range contains the RVA;
`nullptr` (none) when no section does. -/
def getSection (sections : List Section) (rva : Nat) : Option Section :=
  sections.find? (fun s => containsRVA s rva)

/-- `bela::pe::ExportedSymbol` (the fields `LookupExports` assigns; a
default-constructed element has `Ordinal = 0xFFFF`, `Hint = 0` and
zero-initialized `Address`/`Name`). -/
structure ExportedSymbol where
  name : List Nat
  address : Nat
  ordinal : Nat
  hint : Nat
deriving Repr, DecidableEq

/-- The element `exports.resize` fills in (file.cc:132). -/
def defaultExportedSymbol : ExportedSymbol :=
  { name := [], address := 0, ordinal := 0xFFFF, hint := 0 }

/-- `IMAGE_EXPORT_DIRECTORY` (the 40-byte Windows SDK export directory
record), decoded little-endian as in file.cc:112-127. -/
structure ExportDirectory where
  characteristics : Nat
  timeDateStamp : Nat
  majorVersion : Nat
  minorVersion : Nat
  nameRVA : Nat
  base : Nat
  numberOfFunctions : Nat
  numberOfNames : Nat
  addressOfFunctions : Nat
  addressOfNames : Nat
  addressOfNameOrdinals : Nat
deriving Repr, DecidableEq

/-- Decode the `IMAGE_EXPORT_DIRECTORY` at offset `off` of the section
buffer. -/
def parseExportDirectory (sdata : List Nat) (off : Nat) : ExportDirectory :=
  { characteristics := le32 sdata off
    timeDateStamp := le32 sdata (off + 4)
    majorVersion := le16 sdata (off + 8)
    minorVersion := le16 sdata (off + 10)
    nameRVA := le32 sdata (off + 12)
    base := le32 sdata (off + 16)
    numberOfFunctions := le32 sdata (off + 20)
    numberOfNames := le32 sdata (off + 24)
    addressOfFunctions := le32 sdata (off + 28)
    addressOfNames := le32 sdata (off + 32)
    addressOfNameOrdinals := le32 sdata (off + 36) }

/-- Modelled from the spec: `SectionBuffer::cast_fromle<uint16_t>`.  The
member is not under `src/`; the spec's ByteRegion contract ("returns a
decoded fixed-width value ... or fails if offset + size(T) exceeds region
length — never reads out of bounds") is modelled as a bounds-checked read
that yields 0 when the read would not fit. -/
def cast_fromle16 (b : List Nat) (off : Nat) : Nat :=
  if off + 2 ≤ b.length then le16 b off else 0

/-- Modelled from the spec: `SectionBuffer::cast_fromle<uint32_t>`; see
`cast_fromle16`. -/
def cast_fromle32 (b : List Nat) (off : Nat) : Nat :=
  if off + 4 ≤ b.length then le32 b off else 0

/-- `SectionBuffer::cstring_view` (bela/pe.hpp:370-381): scan for a NUL from
`offset`; the view up to it, or empty when `offset` is out of range or no
NUL is found before the end of the buffer. -/
def cstring_view (b : List Nat) (offset : Nat) : List Nat :=
  if offset > b.length then []
  else if (b.drop offset).contains 0 then (b.drop offset).takeWhile (fun c => c ≠ 0) else []

/-- `size_t` subtraction `sdata->size() - L` (wraps modulo 2^64 when
`L > size`). -/
def subSizeT (size L : Nat) : Nat := (size + 2 ^ 64 - L) % 2 ^ 64

/-- `uint32_t` subtraction (wraps modulo 2^32). -/
def subU32 (a b : Nat) : Nat := (a + 2 ^ 32 - b) % 2 ^ 32

/-- The guard of the NameOrdinals loop (file.cc:136):
`sdata->size() - L > exports.size() * 2`. -/
def ordinalsGuard (size L count : Nat) : Bool := subSizeT size L > count * 2

/-- The guard of the Names loop (file.cc:145):
`sdata->size() - N >= exports.size() * 4`. -/
def namesGuard (size N count : Nat) : Bool := count * 4 ≤ subSizeT size N

/-- The per-element guard of the Functions loop (file.cc:154):
`sdata->size() - L > exports[i].Ordinal * 4 + 4`. -/
def functionsGuard (size L ordinal : Nat) : Bool := subSizeT size L > ordinal * 4 + 4

/-- The Functions read offset (file.cc:155):
`L + static_cast<int>(exports[i].Ordinal - ordinalBase) * 4`, computed in
32-bit arithmetic with a possibly negative signed difference. -/
def funcReadOffset (L ordinal base : Nat) : Nat :=
  (((L : Int) + ((ordinal : Int) - (base : Int)) * 4).emod (2 ^ 32)).toNat

/-- The NameOrdinals block of `LookupExports` (file.cc:133-142): run only
when `AddressOfNameOrdinals` lies strictly inside the owning section's
virtual range; each element's ordinal is the 16-bit table entry plus the
ordinal base (truncated to `unsigned short`), its hint the index. -/
def ordinalsBlock (sdata : List Nat) (va vsize aono base : Nat)
    (exports : List ExportedSymbol) : List ExportedSymbol :=
  if va < aono ∧ aono < (va + vsize) % 2 ^ 32 then
    let L := aono - va
    if ordinalsGuard sdata.length L exports.length then
      exports.mapIdx fun i e =>
        { e with ordinal := (cast_fromle16 sdata (L + i * 2) + base) % 2 ^ 16, hint := i }
    else exports
  else exports

/-- The Names block of `LookupExports` (file.cc:143-150): run only when
`AddressOfNames` lies strictly inside the section's virtual range; each name
is the NUL-terminated string at the table's RVA minus the section base. -/
def namesBlock (sdata : List Nat) (va vsize aon : Nat)
    (exports : List ExportedSymbol) : List ExportedSymbol :=
  if va < aon ∧ aon < (va + vsize) % 2 ^ 32 then
    let N := aon - va
    if namesGuard sdata.length N exports.length then
      exports.mapIdx fun i e =>
        { e with name := cstring_view sdata (subU32 (cast_fromle32 sdata (N + i * 4)) va) }
    else exports
  else exports

/-- The Functions block of `LookupExports` (file.cc:151-158): run only when
`AddressOfFunctions` lies strictly inside the section's virtual range; each
element's address is read at `(ordinal - Base) * 4` past the table when the
per-element guard passes. -/
def functionsBlock (sdata : List Nat) (va vsize aof base : Nat)
    (exports : List ExportedSymbol) : List ExportedSymbol :=
  if va < aof ∧ aof < (va + vsize) % 2 ^ 32 then
    let L := aof - va
    exports.map fun e =>
      if functionsGuard sdata.length L e.ordinal then
        { e with address := cast_fromle32 sdata (funcReadOffset L e.ordinal base) }
      else e
  else exports

/-- `File::LookupExports` (src/belawin/pe/file.cc:93-164).  `exd` is the
export data directory (`getDataDirectory(IMAGE_DIRECTORY_ENTRY_EXPORT)`,
`none` for a `nullptr`); `provider` stands for `readSectionData` (defined
outside `src/`), yielding the raw bytes loaded for a section or `none` for a
read failure.  An absent directory, an RVA no section contains, a directory
record that does not fit, or `NumberOfNames == 0` all yield success with no
symbols; the three table blocks run only under their respective
range validations, and the result is sorted by ordinal. -/
def lookupExports (sections : List Section) (exd : Option DataDirectory)
    (provider : Section → Option (List Nat)) : Except PeErr (List ExportedSymbol) :=
  match exd with
  | none => .ok []
  | some dd =>
    match getSection sections dd.virtualAddress with
    | none => .ok []
    | some ds =>
      match provider ds with
      | none => .error .ioError
      | some sdata =>
        let N := dd.virtualAddress - ds.virtualAddress
        if sdata.length < N + 40 then .ok []
        else
          let ied := parseExportDirectory sdata N
          if ied.numberOfNames = 0 then .ok []
          else
            let ordinalBase := ied.base % 2 ^ 16
            let e0 := List.replicate ied.numberOfNames defaultExportedSymbol
            let e1 := ordinalsBlock sdata ds.virtualAddress ds.virtualSize
              ied.addressOfNameOrdinals ordinalBase e0
            let e2 := namesBlock sdata ds.virtualAddress ds.virtualSize
              ied.addressOfNames e1
            let e3 := functionsBlock sdata ds.virtualAddress ds.virtualSize
              ied.addressOfFunctions ordinalBase e2
            .ok (e3.mergeSort fun a b => a.ordinal ≤ b.ordinal)

/-- `SectionBuffer::function_hit` as revised in `internal/image.hpp`
(src/unnamed/part_004:375-380): perform the big-endian 2-byte read exactly
when `offset + 2` does not exceed the buffer size, otherwise return 0. -/
def function_hit (b : List Nat) (offset : Nat) : Nat :=
  if offset + 2 > b.length then 0
  else byteAt b offset * 256 + byteAt b (offset + 1)

/-- `SectionBuffer::function_hit` as it stands in `include/bela/pe.hpp`
(pe.hpp:394-399): `if (offset + 2 < rawdata.size()) return 0;` — it returns
0 for every strictly in-bounds read and performs the 2-byte read only when
`offset + 2 >= size`; when `offset + 2 > size` that read crosses the end of
the buffer, which the model reports as `none`. -/
def function_hitHpp (b : List Nat) (offset : Nat) : Option Nat :=
  if offset + 2 < b.length then some 0
  else if offset + 2 = b.length then some (byteAt b offset * 256 + byteAt b (offset + 1))
  else none

/-- `sec.Header.Offset + sec.Header.Size` (32-bit addition) cast to
`int64_t` (src/unnamed/part_007:8). -/
def sectionFileEnd (s : Section) : Nat := (s.offset + s.size) % 2 ^ 32

/-- The overlay start of `File::LookupOverlay` (part_007:6-11): the maximum
of `sectionFileEnd` over all sections, starting from 0. -/
def overlayStart (sections : List Section) : Int :=
  sections.foldl (fun acc s => max acc ((sectionFileEnd s : Int))) 0

/-- Error outcomes of `File::LookupOverlay`. -/
inductive OverlayErr where
  /-- `ErrNoOverlay` ("no overlay data"). -/
  | noOverlay : OverlayErr
  /-- "overlay data size large over limit". -/
  | limitExceeded : OverlayErr
  /-- seek/read failure. -/
  | ioError : OverlayErr
deriving Repr, DecidableEq

/-- `bela::pe::LimitOverlaySize` (bela/pe.hpp:18), the default `limitsize`. -/
def LimitOverlaySize : Int := 64 * 1024 * 1024

/-- `File::LookupOverlay` (src/unnamed/part_007:5-26): the trailing bytes of
the file past `overlayStart`; no trailing bytes is `ErrNoOverlay`, a length
above `limitsize` is the limit error, otherwise exactly the trailing bytes
are read and returned. -/
def lookupOverlay (sections : List Section) (f : List Nat) (limitsize : Int) :
    Except OverlayErr (List Nat) :=
  let start := overlayStart sections
  let overlayLen := (f.length : Int) - start
  if overlayLen ≤ 0 then .error .noOverlay
  else if overlayLen > limitsize then .error .limitExceeded
  else .ok (f.drop start.toNat)

end Pe

deriving instance DecidableEq for Except

/-! ## Basic facts about byte reads -/

theorem byteAt_lt (b : List Nat) (i : Nat) : byteAt b i < 256 :=
  Nat.mod_lt _ (by norm_num)

theorem byteAt_drop (l : List Nat) (p j : Nat) : byteAt (l.drop p) j = byteAt l (p + j) := by
  simp [byteAt, List.getD, List.getElem?_drop]

theorem readLE_lt (b : List Nat) (off : Nat) : ∀ n, readLE b off n < 256 ^ n := by
  intro n
  induction n generalizing off with
  | zero => simp [readLE]
  | succ m ih =>
    have h1 := byteAt_lt b off
    have h2 := ih (off + 1)
    calc readLE b off (m + 1) = byteAt b off + 256 * readLE b (off + 1) m := rfl
      _ < 256 + 256 * readLE b (off + 1) m := by omega
      _ ≤ 256 + 256 * (256 ^ m - 1) := by
          have : readLE b (off + 1) m ≤ 256 ^ m - 1 := by omega
          omega
      _ ≤ 256 ^ (m + 1) := by
          have : 1 ≤ 256 ^ m := Nat.one_le_pow _ _ (by norm_num)
          rw [pow_succ]
          omega

theorem le16_lt (b : List Nat) (off : Nat) : le16 b off < 2 ^ 16 := readLE_lt b off 2

theorem le32_lt (b : List Nat) (off : Nat) : le32 b off < 2 ^ 32 := readLE_lt b off 4

theorem readLE_drop (b : List Nat) (p : Nat) : ∀ n off, readLE (b.drop p) off n = readLE b (p + off) n := by
  intro n
  induction n with
  | zero => intro off; rfl
  | succ m ih =>
    intro off
    show byteAt (b.drop p) off + 256 * readLE (b.drop p) (off + 1) m = _
    rw [byteAt_drop, ih (off + 1)]
    rfl

theorem le16_decompose (b : List Nat) (off : Nat) :
    le16 b off = byteAt b off + 256 * byteAt b (off + 1) := by
  simp [le16, readLE]

theorem toInt64_nonneg (n : Nat) (h : n < 2 ^ 63) : 0 ≤ toInt64 n := by
  simp only [toInt64, if_pos h]
  exact Int.ofNat_nonneg n

/-! ## Facts about the EOCD signature scan -/

namespace Zip

theorem findSigFrom_eq_ofNat (b : List Nat) (i p : Nat) (h : findSigFrom b i = (p : Int)) :
    sigAt b p = true ∧ commentLenOk b p = true ∧ p ≤ i := by
  induction i with
  | zero =>
    rw [findSigFrom] at h
    split at h
    · rename_i hc
      have hp : p = 0 := by omega
      subst hp
      simpa using hc
    · omega
  | succ k ih =>
    rw [findSigFrom] at h
    split at h
    · rename_i hc
      have hp : p = k + 1 := by omega
      subst hp
      have := (Bool.and_eq_true _ _).mp hc
      exact ⟨this.1, this.2, le_refl _⟩
    · have := ih h
      exact ⟨this.1, this.2.1, by omega⟩

theorem findSigFrom_skip (b : List Nat) (i : Nat)
    (h : ∀ j, 1 ≤ j → j ≤ i → byteAt b j ≠ 80) : findSigFrom b i = findSigFrom b 0 := by
  induction i with
  | zero => rfl
  | succ k ih =>
    have hs : sigAt b (k + 1) = false := by
      have : byteAt b (k + 1) ≠ 80 := h (k + 1) (by omega) (le_refl _)
      simp [sigAt, this]
    conv_lhs => rw [findSigFrom]
    rw [hs]
    simp only [Bool.false_and, if_neg (by simp : ¬ (false = true))]
    exact ih fun j h1 h2 => h j h1 (by omega)

theorem findSigFrom_none (b : List Nat) (i : Nat)
    (h : ∀ j, j ≤ i → byteAt b j ≠ 80) : findSigFrom b i = -1 := by
  have h0 : sigAt b 0 = false := by
    have : byteAt b 0 ≠ 80 := h 0 (by omega)
    simp [sigAt, this]
  have := findSigFrom_skip b i fun j h1 h2 => h j h2
  rw [this, findSigFrom, h0]
  simp

theorem findSignatureInBlock_eq_ofNat (b : List Nat) (p : Nat)
    (h : findSignatureInBlock b = (p : Int)) :
    sigAt b p = true ∧ commentLenOk b p = true ∧ p + 22 ≤ b.length := by
  rw [findSignatureInBlock] at h
  split at h
  · omega
  · rename_i hlen
    have hf := findSigFrom_eq_ofNat b _ p h
    refine ⟨hf.1, hf.2.1, ?_⟩
    have := hf.2.2
    omega

/-- What a successful EOCD location guarantees about the returned reader
suffix: it is at least a full 22-byte record, its declared comment fits, and
it is a suffix of the archive. -/
theorem findDirectoryEnd_ok (f : List Nat) (deo : Nat) (b : List Nat)
    (h : findDirectoryEnd f = some (deo, b)) :
    22 ≤ b.length ∧ le16 b 20 + 22 ≤ b.length ∧ b.length ≤ f.length := by
  rw [findDirectoryEnd] at h
  have main : ∀ bl : List Nat, ∀ p : Nat, findSignatureInBlock bl = (p : Int) →
      bl.length ≤ f.length → b = bl.drop p →
      22 ≤ b.length ∧ le16 b 20 + 22 ≤ b.length ∧ b.length ≤ f.length := by
    intro bl p hp hlen hb
    have hs := findSignatureInBlock_eq_ofNat bl p hp
    have hcl : byteAt bl (p + 20) + 256 * byteAt bl (p + 21) + 22 + p ≤ bl.length := by
      have := hs.2.1
      rw [commentLenOk] at this
      exact by simpa using this
    have hlb : b.length = bl.length - p := by rw [hb, List.length_drop]
    have hle : le16 b 20 = byteAt bl (p + 20) + 256 * byteAt bl (p + 21) := by
      rw [hb, le16_decompose, byteAt_drop, byteAt_drop]
    refine ⟨by omega, by omega, by omega⟩
  split at h
  · rename_i hp1
    simp only [Option.some.injEq, Prod.mk.injEq] at h
    refine main _ (findSignatureInBlock (lastSlice f (min 1024 f.length))).toNat ?_
      (by simp [lastSlice]) h.2.symm
    omega
  · split at h
    · exact absurd h (by simp)
    · dsimp only at h
      split at h
      · rename_i hp2
        simp only [Option.some.injEq, Prod.mk.injEq] at h
        refine main _ (findSignatureInBlock (lastSlice f (min (65 * 1024) f.length))).toNat ?_
          (by simp [lastSlice]) h.2.symm
        omega
      · exact absurd h (by simp)

theorem findDirectoryEnd_length (f : List Nat) (deo : Nat) (b : List Nat)
    (h : findDirectoryEnd f = some (deo, b)) : 22 ≤ f.length := by
  have := findDirectoryEnd_ok f deo b h
  omega

end Zip

/-! ## Facts about the overlay fold and the section lookup -/

namespace Pe

theorem overlayStart_aux_le (l : List Section) (init : Int) :
    init ≤ l.foldl (fun acc s => max acc ((sectionFileEnd s : Int))) init := by
  induction l generalizing init with
  | nil => exact le_refl _
  | cons hd tl ih =>
    exact le_trans (le_max_left _ _) (ih (max init ((sectionFileEnd hd : Int))))

theorem overlayStart_aux_mem (l : List Section) (init : Int) (s : Section) (h : s ∈ l) :
    (sectionFileEnd s : Int) ≤ l.foldl (fun acc t => max acc ((sectionFileEnd t : Int))) init := by
  induction l generalizing init with
  | nil => cases h
  | cons hd tl ih =>
    rcases List.mem_cons.mp h with h | h
    · subst h
      exact le_trans (le_max_right _ _) (overlayStart_aux_le tl _)
    · exact ih _ h

theorem overlayStart_nonneg (sections : List Section) : 0 ≤ overlayStart sections :=
  overlayStart_aux_le sections 0

theorem le_overlayStart (sections : List Section) (s : Section) (h : s ∈ sections) :
    (sectionFileEnd s : Int) ≤ overlayStart sections :=
  overlayStart_aux_mem sections 0 s h

theorem getSection_first (sections : List Section) (rva : Nat) (s : Section)
    (h : getSection sections rva = some s) :
    containsRVA s rva = true ∧
      ∃ pre post, sections = pre ++ s :: post ∧ ∀ t ∈ pre, containsRVA t rva = false := by
  induction sections with
  | nil => cases h
  | cons hd tl ih =>
    rw [getSection, List.find?_cons] at h
    split at h
    · rename_i hp
      cases h
      exact ⟨hp, [], tl, rfl, by simp⟩
    · rename_i hp
      obtain ⟨h1, pre, post, h2, h3⟩ := ih h
      refine ⟨h1, hd :: pre, post, by rw [h2]; rfl, ?_⟩
      intro t ht
      rcases List.mem_cons.mp ht with ht | ht
      · subst ht
        simpa using hp
      · exact h3 t ht

end Pe

/-! ## Concrete sample inputs used by the per-claim theorems -/

/-- A bare 22-byte end-of-central-directory record (an empty archive). -/
def exEOCD22 : List Nat := [80, 75, 5, 6] ++ List.replicate 18 0

/-- A 100-byte file whose EOCD (at offset 78) declares 16 directory records:
16 > 100 / 30, so `Reader::Initialize` must reject it before any per-entry
read. -/
def ex100 : List Nat :=
  List.replicate 78 0 ++
    [80, 75, 5, 6, 0, 0, 0, 0, 16, 0, 16, 0, 0, 0, 0, 0, 0, 0, 0, 0, 0, 0]

/-- A 98-byte archive: a 56-byte Zip64 end record (directory size 42, at
offset 0), the 20-byte Zip64 locator (at offset 56, pointing at offset 0),
and the 22-byte EOCD (at offset 76) whose 32-bit directory-size field holds
the format sentinel 0xFFFFFFFF while entry count (1) and offset (0) do
not. -/
def exC1 : List Nat :=
  ([80, 75, 6, 6] ++ [44, 0, 0, 0, 0, 0, 0, 0] ++ [45, 0] ++ [45, 0] ++
    [0, 0, 0, 0] ++ [0, 0, 0, 0] ++ [1, 0, 0, 0, 0, 0, 0, 0] ++
    [1, 0, 0, 0, 0, 0, 0, 0] ++ [42, 0, 0, 0, 0, 0, 0, 0] ++ [0, 0, 0, 0, 0, 0, 0, 0]) ++
  ([80, 75, 6, 7] ++ [0, 0, 0, 0] ++ [0, 0, 0, 0, 0, 0, 0, 0] ++ [1, 0, 0, 0]) ++
  ([80, 75, 5, 6] ++ [0, 0] ++ [0, 0] ++ [1, 0] ++ [1, 0] ++
    [255, 255, 255, 255] ++ [0, 0, 0, 0] ++ [0, 0])

/-- A 66560-byte file whose only EOCD signature starts at offset 0, that is
66560 = 65 * 1024 bytes from the end of the file — more than 64 KiB. -/
def exC4 : List Nat := [80, 75, 5, 6] ++ List.replicate 66556 0

/-- One central-directory header (46 bytes, DOS time 0x0821 / date 0x5821),
a 1-byte name, and a 12-byte UNIX extra field (tag 0x000d) whose
modification time is 946684800 (2000-01-01T00:00:00Z). -/
def exC2stream : List Nat :=
  [80, 75, 1, 2, 20, 0, 20, 0, 0, 0, 0, 0, 0x21, 0x08, 0x21, 0x58,
   0, 0, 0, 0, 10, 0, 0, 0, 10, 0, 0, 0, 1, 0, 12, 0, 0, 0,
   0, 0, 0, 0, 0, 0, 0, 0, 0, 0, 0, 0] ++
  [97] ++ [13, 0, 8, 0, 0, 0, 0, 0, 128, 67, 109, 56]

/-- A concrete choice of the abstract time conversions. -/
def tcZero : Zip.TimeConv := ⟨fun _ _ => 0, fun _ => 0⟩

/-- A 90-byte PE image prefix: 'MZ', `e_lfanew = 64`, "PE\0\0" at 64, a COFF
file header at 68 whose `SizeOfOptionalHeader` is 224 (the 32-bit layout
size), and an optional header starting at 88 whose magic is 0x20b (the
64-bit magic). -/
def exPeC3 : List Nat :=
  [77, 90] ++ List.replicate 58 0 ++ [64, 0, 0, 0] ++ [80, 69, 0, 0] ++
    [0x64, 0x86, 0, 0, 0, 0, 0, 0, 0, 0, 0, 0, 0, 0, 0, 0, 0xE0, 0, 0, 0] ++
    [0x0B, 0x02]

/-- The same PE image prefix with `SizeOfOptionalHeader = 240`
(`sizeof(OptionalHeader64)`). -/
def exPe64 : List Nat :=
  [77, 90] ++ List.replicate 58 0 ++ [64, 0, 0, 0] ++ [80, 69, 0, 0] ++
    [0x64, 0x86, 0, 0, 0, 0, 0, 0, 0, 0, 0, 0, 0, 0, 0, 0, 0xF0, 0, 0, 0] ++
    [0x0B, 0x02]

/-! ## C9 — bounds check of `SectionBuffer::function_hit` -/

/-- C9: the 2-byte `function_hit` read is bounds-checked as the claim states
it in the `internal/image.hpp` revision, but the `bela/pe.hpp` revision's
check is inverted: on the 4-byte buffer `[1, 2, 3, 4]` it refuses the valid
read at offset 0 (returning 0 where the correct check reads 0x0102), it only
performs an in-bounds read at the single offset 2 where `offset + 2` equals
the buffer size, and at offset 3 its read crosses the end of the buffer
(`none`) where the correct check returns 0. -/
theorem pe_c9_function_hit_check_inverted :
    Pe.function_hitHpp [1, 2, 3, 4] 0 = some 0 ∧
    Pe.function_hit [1, 2, 3, 4] 0 = 258 ∧
    Pe.function_hitHpp [1, 2, 3, 4] 2 = some 772 ∧
    Pe.function_hit [1, 2, 3, 4] 2 = 772 ∧
    Pe.function_hitHpp [1, 2, 3, 4] 3 = none ∧
    Pe.function_hit [1, 2, 3, 4] 3 = 0 := by
  decide

/-! ## C10 — `File::LookupOverlay` -/

/-- C10: `LookupOverlay` computes the overlay start as the maximum of
`section.Offset + section.Size` over all sections (never negative, and an
upper bound of every section's file extent); with `N = size - overlayStart`
trailing bytes it returns exactly those `N` bytes when `0 < N ≤ limitsize`,
reports `ErrNoOverlay` when `N ≤ 0`, and reports the limit error instead of
truncating when `N` exceeds the limit; the default limit is 64 MiB. -/
theorem pe_c10_lookupOverlay (sections : List Pe.Section) (f : List Nat) (limitsize : Int) :
    (0 ≤ Pe.overlayStart sections ∧
      ∀ s ∈ sections, (Pe.sectionFileEnd s : Int) ≤ Pe.overlayStart sections) ∧
    (0 < (f.length : Int) - Pe.overlayStart sections →
      (f.length : Int) - Pe.overlayStart sections ≤ limitsize →
      Pe.lookupOverlay sections f limitsize = .ok (f.drop (Pe.overlayStart sections).toNat) ∧
      ((f.drop (Pe.overlayStart sections).toNat).length : Int) =
        (f.length : Int) - Pe.overlayStart sections) ∧
    ((f.length : Int) - Pe.overlayStart sections ≤ 0 →
      Pe.lookupOverlay sections f limitsize = .error .noOverlay) ∧
    (0 ≤ limitsize → limitsize < (f.length : Int) - Pe.overlayStart sections →
      Pe.lookupOverlay sections f limitsize = .error .limitExceeded) ∧
    Pe.LimitOverlaySize = 67108864 := by
  have hnn := Pe.overlayStart_nonneg sections
  refine ⟨⟨hnn, fun s hs => Pe.le_overlayStart sections s hs⟩, ?_, ?_, ?_, rfl⟩
  · intro h1 h2
    rw [Pe.lookupOverlay]
    rw [if_neg (by omega), if_neg (by omega)]
    refine ⟨rfl, ?_⟩
    rw [List.length_drop]
    omega
  · intro h1
    rw [Pe.lookupOverlay]
    rw [if_pos (by omega)]
  · intro h0 h1
    rw [Pe.lookupOverlay]
    rw [if_neg (by omega), if_pos (by omega)]

/-! ## C8 — RVA-to-section lookup -/

/-- C8: `getSection` linearly scans the decoded section list and returns the
first section whose `[VirtualAddress, VirtualAddress + VirtualSize)` range
(32-bit sum) contains the RVA — sections need not be disjoint or ordered —
and returns null when no section contains it; `LookupExports` treats that
null as an absent directory and succeeds with no symbols rather than
erroring. -/
theorem pe_c8_getSection_first_match (sections : List Pe.Section) (rva : Nat)
    (dd : Pe.DataDirectory) (provider : Pe.Section → Option (List Nat)) :
    (∀ s, Pe.getSection sections rva = some s →
      (s.virtualAddress ≤ rva ∧ rva < (s.virtualAddress + s.virtualSize) % 2 ^ 32) ∧
      ∃ pre post, sections = pre ++ s :: post ∧
        ∀ t ∈ pre, Pe.containsRVA t rva = false) ∧
    ((∀ s ∈ sections, Pe.containsRVA s rva = false) → Pe.getSection sections rva = none) ∧
    (Pe.getSection sections dd.virtualAddress = none →
      Pe.lookupExports sections (some dd) provider = .ok []) := by
  refine ⟨?_, ?_, ?_⟩
  · intro s hs
    obtain ⟨h1, h2⟩ := Pe.getSection_first sections rva s hs
    refine ⟨?_, h2⟩
    rw [Pe.containsRVA, Bool.and_eq_true, decide_eq_true_eq, decide_eq_true_eq] at h1
    exact h1
  · intro h
    rw [Pe.getSection]
    rw [List.find?_eq_none]
    intro s hs
    simp [h s hs]
  · intro h
    rw [Pe.lookupExports, h]

/-! ## C3 — 32/64-bit classification of `File::NewFile` -/

theorem readFileHeaderAt_is64bit (f : List Nat) (base : Nat) (r : Pe.NewFileResult)
    (h : Pe.readFileHeaderAt f base = .ok r) :
    r.is64bit = (r.fh.sizeOfOptionalHeader == Pe.sizeofOptionalHeader64) := by
  rw [Pe.readFileHeaderAt] at h
  split at h
  · cases h
  · cases h
    rfl

theorem newFileCore_is64bit (f : List Nat) (r : Pe.NewFileResult)
    (h : Pe.newFileCore f = .ok r) :
    r.is64bit = (r.fh.sizeOfOptionalHeader == Pe.sizeofOptionalHeader64) := by
  rw [Pe.newFileCore] at h
  split at h
  · cases h
  · split at h
    · dsimp only at h
      split at h
      · cases h
      · split at h
        · exact readFileHeaderAt_is64bit _ _ _ h
        · cases h
    · exact readFileHeaderAt_is64bit _ _ _ h

/-- C3 (amended): for every file accepted by `File::NewFile`, the 64-bit
flag equals the test `fh.SizeOfOptionalHeader == sizeof(OptionalHeader64)`
(240) on the COFF file header alone — so two files with identical COFF file
headers always classify identically, independent of their optional headers
(which `NewFile` never reads) and of any caller hint (the function takes
none). -/
theorem pe_c3_is64bit_from_size_field (f g : List Nat) (r q : Pe.NewFileResult)
    (hf : Pe.newFileCore f = .ok r) (hg : Pe.newFileCore g = .ok q) :
    r.is64bit = (r.fh.sizeOfOptionalHeader == Pe.sizeofOptionalHeader64) ∧
    (r.fh = q.fh → r.is64bit = q.is64bit) := by
  have h1 := newFileCore_is64bit f r hf
  have h2 := newFileCore_is64bit g q hg
  exact ⟨h1, fun hfh => by rw [h1, h2, hfh]⟩

/-- C3 witness: a concrete PE prefix whose `SizeOfOptionalHeader` is 240 is
classified 64-bit, by the amended theorem. -/
theorem pe_c3_is64bit_witness :
    ({ base := 68, fh := ⟨0x8664, 0, 0, 0, 0, 240, 0⟩, is64bit := true } :
        Pe.NewFileResult).is64bit =
      (({ base := 68, fh := ⟨0x8664, 0, 0, 0, 0, 240, 0⟩, is64bit := true } :
        Pe.NewFileResult).fh.sizeOfOptionalHeader == Pe.sizeofOptionalHeader64) :=
  (pe_c3_is64bit_from_size_field exPe64 exPe64
    { base := 68, fh := ⟨0x8664, 0, 0, 0, 0, 240, 0⟩, is64bit := true }
    { base := 68, fh := ⟨0x8664, 0, 0, 0, 0, 240, 0⟩, is64bit := true }
    (by decide) (by decide)).1

/-- C3 counterexample: a valid 'MZ' + "PE\0\0" file whose optional-header
magic is 0x20b (the PE32+ magic, at offset 88) but whose
`SizeOfOptionalHeader` is 224 is classified 32-bit (`is64bit = false`):
the magic does not determine the flag. -/
theorem pe_c3_magic_does_not_decide :
    Pe.newFileCore exPeC3 =
      .ok { base := 68,
            fh := { machine := 0x8664, numberOfSections := 0, timeDateStamp := 0,
                    pointerToSymbolTable := 0, numberOfSymbols := 0,
                    sizeOfOptionalHeader := 224, characteristics := 0 },
            is64bit := false } ∧
    le16 exPeC3 88 = 0x20B := by
  decide

/-! ## C5 — rejection of impossible directory record counts -/

/-- C5: whenever the decoded directory-end record declares more entries than
`size / 30` (`fileHeaderLen`), `Reader::Initialize` fails with the dedicated
"TOC declares impossible files" error — an error no per-entry read produces,
raised before the per-entry loop is entered. -/
theorem zip_c5_impossible_toc_rejected (tc : Zip.TimeConv) (f : List Nat) (junk : Nat)
    (d : Zip.DirectoryEnd) (h1 : Zip.readDirectoryEnd f junk = .ok d)
    (h2 : f.length / 30 < d.directoryRecords) :
    Zip.readerInit tc f junk = .error .tocImpossible := by
  rw [Zip.readerInit, h1]
  exact if_pos h2

/-- C5 witness: a 100-byte archive declaring 16 directory records
(16 > 100 / 30 = 3) is rejected with the TOC error. -/
theorem zip_c5_witness :
    Zip.readerInit tcZero ex100 0 = .error .tocImpossible :=
  zip_c5_impossible_toc_rejected tcZero ex100 0
    { diskNbr := 0, dirDiskNbr := 0, dirRecordsThisDisk := 16, directoryRecords := 16,
      directorySize := 0, directoryOffset := 0, commentLen := 0, comment := [] }
    (by decide) (by decide)

/-! ## C2 — timestamp precedence -/

/-- C2: decoding a central-directory entry whose only timestamp extra field
is a UNIX field (tag 0x000d) carrying modification time 946684800.  The
decoded entry's `time` is `FromDosDateTime(0x5821, 0x0821)` — whatever the
DOS conversion yields, for every conversion function — because
zip.cc:305 unconditionally overwrites `file.time` (which the UNIX branch at
zip.cc:282 assigned) with the DOS value, and the `modified` override of
zip.cc:306-308 was never set by that branch.  The UNIX modification time
therefore does not override the DOS timestamp. -/
theorem zip_c2_unix_mtime_not_applied (tc : Zip.TimeConv) :
    Zip.readDirectoryHeader tc exC2stream = .ok
      ({ cversion := 20, rversion := 20, flags := 0, method := 0, crc32 := 0,
         compressedSize := 10, uncompressedSize := 10, externalAttrs := 0, position := 0,
         name := [97], extra := [13, 0, 8, 0, 0, 0, 0, 0, 128, 67, 109, 56], comment := [],
         utf8 := false, time := tc.fromDosDateTime 22561 2081, aesVersion := 0,
         aesStrength := 0 }, []) ∧
    le32 [13, 0, 8, 0, 0, 0, 0, 0, 128, 67, 109, 56] 8 = 946684800 ∧
    le16 exC2stream 12 = 2081 ∧ le16 exC2stream 14 = 22561 :=
  ⟨rfl, by decide, by decide, by decide⟩

/-! ## C6 — the Zip64 extra field of a directory entry -/

theorem parseExtraGo_nil (tc : Zip.TimeConv) (fuel : Nat) (st : Zip.ExtraState) :
    Zip.parseExtraGo tc fuel [] st = .ok st := by
  cases fuel <;> simp [Zip.parseExtraGo]

theorem zip64FieldO_spec (fb : List Nat) (st : Zip.ExtraState) :
    ((if st.needOffset then 8 else 0) ≤ fb.length →
      Zip.zip64FieldO fb st = .ok
        { st with needOffset := false
                  file := { st.file with
                    position := if st.needOffset then le64 fb 0 else st.file.position } }) ∧
    (fb.length < (if st.needOffset then 8 else 0) →
      Zip.zip64FieldO fb st = .error .notValid) := by
  obtain ⟨file, needU, needS, needO, modified⟩ := st
  cases needO <;> constructor <;> intro h <;>
    simp_all [Zip.zip64FieldO]

theorem zip64FieldS_spec (fb : List Nat) (st : Zip.ExtraState) :
    ((if st.needSize then 8 else 0) + (if st.needOffset then 8 else 0) ≤ fb.length →
      Zip.zip64FieldS fb st = .ok
        { st with
          needSize := false, needOffset := false,
          file := { st.file with
            compressedSize := if st.needSize then le64 fb 0 else st.file.compressedSize
            position :=
              if st.needOffset then le64 fb (if st.needSize then 8 else 0)
              else st.file.position } }) ∧
    (fb.length < (if st.needSize then 8 else 0) + (if st.needOffset then 8 else 0) →
      Zip.zip64FieldS fb st = .error .notValid) := by
  obtain ⟨file, needU, needS, needO, modified⟩ := st
  have hd8 : le64 (fb.drop 8) 0 = le64 fb 8 := by
    simp only [le64]
    rw [readLE_drop, Nat.add_zero]
  cases needS <;> cases needO <;> constructor <;> intro h <;>
    simp_all [Zip.zip64FieldS, Zip.zip64FieldO] <;>
    (repeat' split) <;> first | omega | simp_all

theorem zip64Field_spec (payload : List Nat) (st : Zip.ExtraState) :
    ((if st.needUSize then 8 else 0) + (if st.needSize then 8 else 0) +
        (if st.needOffset then 8 else 0) ≤ payload.length →
      Zip.zip64Field payload st = .ok
        { st with
          needUSize := false, needSize := false, needOffset := false,
          file := { st.file with
            uncompressedSize :=
              if st.needUSize then le64 payload 0 else st.file.uncompressedSize
            compressedSize :=
              if st.needSize then le64 payload (if st.needUSize then 8 else 0)
              else st.file.compressedSize
            position :=
              if st.needOffset then
                le64 payload ((if st.needUSize then 8 else 0) + (if st.needSize then 8 else 0))
              else st.file.position } }) ∧
    (payload.length <
        (if st.needUSize then 8 else 0) + (if st.needSize then 8 else 0) +
          (if st.needOffset then 8 else 0) →
      Zip.zip64Field payload st = .error .notValid) := by
  obtain ⟨file, needU, needS, needO, modified⟩ := st
  have hd8 : le64 (payload.drop 8) 0 = le64 payload 8 := by
    simp only [le64]
    rw [readLE_drop, Nat.add_zero]
  have hdd : le64 ((payload.drop 8).drop 8) 0 = le64 payload 16 := by
    simp only [le64]
    rw [readLE_drop, readLE_drop]
  have hl : (payload.drop 8).length = payload.length - 8 := List.length_drop 8 payload
  cases needU <;> cases needS <;> cases needO <;> constructor <;> intro h <;>
    simp_all [Zip.zip64Field, Zip.zip64FieldS, Zip.zip64FieldO] <;>
    (repeat' split) <;> first | omega | simp_all

theorem parseExtraLoop_zip64_single (tc : Zip.TimeConv) (payload : List Nat)
    (st : Zip.ExtraState) (hlen : payload.length < 65536) :
    Zip.parseExtraLoop tc
        ([1, 0, payload.length % 256, payload.length / 256] ++ payload) st =
      Zip.zip64Field payload st := by
  have hext : ([1, 0, payload.length % 256, payload.length / 256] ++ payload).length =
      payload.length + 4 := by
    simp [List.length_append]
  rw [Zip.parseExtraLoop, hext]
  rw [show payload.length + 4 = (payload.length + 3) + 1 from rfl]
  rw [Zip.parseExtraGo]
  rw [hext, if_neg (by omega : ¬ payload.length + 4 < 4)]
  have htag : le16 ([1, 0, payload.length % 256, payload.length / 256] ++ payload) 0 = 1 := by
    simp [le16, readLE, byteAt]
  have hsize : le16 ([1, 0, payload.length % 256, payload.length / 256] ++ payload) 2 =
      payload.length := by
    have hq : payload.length / 256 < 256 := by omega
    simp [le16, readLE, byteAt]
    rw [Nat.mod_eq_of_lt hq]
    omega
  have hdrop : ([1, 0, payload.length % 256, payload.length / 256] ++ payload).drop 4 =
      payload := rfl
  rw [htag, hsize, hdrop]
  rw [if_neg (by omega : ¬ payload.length < payload.length)]
  rw [if_pos rfl]
  rw [List.take_length, List.drop_length]
  cases hz : Zip.zip64Field payload st <;> simp [parseExtraGo_nil]

/-- C6: decoding a Zip64 extra field (tag 0x0001) whose body is `payload`
consumes 8-byte values in the fixed order uncompressed size, compressed
size, offset, but only for the flags recorded as sentinel-valued
(`needUSize`/`needSize`/`needOffset`, set at zip.cc:216-218 from the 32-bit
fields being 0xFFFFFFFF): each needed field is taken from the next 8 bytes
of the payload (so a sentinel-valued uncompressed size is replaced by the
true 8-byte value `le64 payload 0`, not kept as the sentinel), and a payload
too short to cover every needed field is a format error. -/
theorem zip_c6_zip64_sentinel_subset (tc : Zip.TimeConv) (payload : List Nat)
    (st : Zip.ExtraState) (hlen : payload.length < 65536) :
    ((if st.needUSize then 8 else 0) + (if st.needSize then 8 else 0) +
        (if st.needOffset then 8 else 0) ≤ payload.length →
      Zip.parseExtraLoop tc
          ([1, 0, payload.length % 256, payload.length / 256] ++ payload) st = .ok
        { st with
          needUSize := false, needSize := false, needOffset := false,
          file := { st.file with
            uncompressedSize :=
              if st.needUSize then le64 payload 0 else st.file.uncompressedSize
            compressedSize :=
              if st.needSize then le64 payload (if st.needUSize then 8 else 0)
              else st.file.compressedSize
            position :=
              if st.needOffset then
                le64 payload ((if st.needUSize then 8 else 0) + (if st.needSize then 8 else 0))
              else st.file.position } }) ∧
    (payload.length <
        (if st.needUSize then 8 else 0) + (if st.needSize then 8 else 0) +
          (if st.needOffset then 8 else 0) →
      Zip.parseExtraLoop tc
          ([1, 0, payload.length % 256, payload.length / 256] ++ payload) st =
        .error .notValid) := by
  rw [parseExtraLoop_zip64_single tc payload st hlen]
  exact zip64Field_spec payload st

/-- A central-directory entry whose 32-bit uncompressed-size field holds the
sentinel 0xFFFFFFFF. -/
def exZFileSentinel : Zip.ZFile :=
  { cversion := 20, rversion := 20, flags := 0, method := 0, crc32 := 0,
    compressedSize := 100, uncompressedSize := 0xFFFFFFFF, externalAttrs := 0, position := 50,
    name := [], extra := [], comment := [], utf8 := false, time := 0,
    aesVersion := 0, aesStrength := 0 }

/-- The loop state for `exZFileSentinel` entering the extra-field walk:
only the uncompressed size was sentinel-valued. -/
def exZ64state : Zip.ExtraState :=
  { file := exZFileSentinel, needUSize := true, needSize := false, needOffset := false,
    modified := 0 }

/-- C6 witness: an entry with uncompressed-size 0xFFFFFFFF plus a Zip64
extra block whose body is the 8-byte value 42 reports size 42, not the
sentinel, consuming nothing for the non-sentinel compressed size and
offset. -/
theorem zip_c6_witness :
    8 ≤ ([42, 0, 0, 0, 0, 0, 0, 0] : List Nat).length ∧
    Zip.parseExtraLoop tcZero [1, 0, 8, 0, 42, 0, 0, 0, 0, 0, 0, 0] exZ64state =
      Except.ok
        { exZ64state with
          needUSize := false
          file := { exZFileSentinel with uncompressedSize := 42 } } := by
  constructor
  · decide
  · exact (zip_c6_zip64_sentinel_subset tcZero [42, 0, 0, 0, 0, 0, 0, 0] exZ64state
      (by decide)).1 (by decide)

/-! ## C7 — export-table validations and bounds checks -/

theorem subSizeT_eq (size L : Nat) (h1 : L ≤ size) (h2 : size < 2 ^ 64) :
    Pe.subSizeT size L = size - L := by
  rw [Pe.subSizeT]
  omega

theorem funcReadOffset_eq (L ordinal base : Nat) (h : base ≤ ordinal) :
    Pe.funcReadOffset L ordinal base = (L + (ordinal - base) * 4) % 2 ^ 32 := by
  rw [Pe.funcReadOffset]
  have hcast : ((L : Int) + ((ordinal : Int) - (base : Int)) * 4) =
      ((L + (ordinal - base) * 4 : Nat) : Int) := by
    push_cast [h]
    ring
  rw [hcast]
  norm_cast

/-- C7: in `LookupExports`, each of the three export-table blocks runs only
after validating that its table address lies inside the owning section's
virtual range (a failed validation leaves the symbols untouched, so the
address is never dereferenced), and — in the regime where the table offset
lies inside the loaded section buffer and the ordinal is at least the
ordinal base — each block's guarded reads stay inside that buffer: the
NameOrdinals guard bounds every 2-byte read, the Names guard every 4-byte
read, and the per-element Functions guard (file.cc:154) bounds the 4-byte
read that line 155 indexes by `(ordinal − Base)`. -/
theorem pe_c7_export_reads_in_bounds (sdata : List Nat) (va vsize aono aon aof base cnt : Nat)
    (exports : List Pe.ExportedSymbol) (hsz : sdata.length < 2 ^ 64) :
    (¬ (va < aono ∧ aono < (va + vsize) % 2 ^ 32) →
      Pe.ordinalsBlock sdata va vsize aono base exports = exports) ∧
    (¬ (va < aon ∧ aon < (va + vsize) % 2 ^ 32) →
      Pe.namesBlock sdata va vsize aon exports = exports) ∧
    (¬ (va < aof ∧ aof < (va + vsize) % 2 ^ 32) →
      Pe.functionsBlock sdata va vsize aof base exports = exports) ∧
    (∀ L i, L ≤ sdata.length → Pe.ordinalsGuard sdata.length L cnt = true → i < cnt →
      L + i * 2 + 2 ≤ sdata.length) ∧
    (∀ N i, N ≤ sdata.length → Pe.namesGuard sdata.length N cnt = true → i < cnt →
      N + i * 4 + 4 ≤ sdata.length) ∧
    (∀ L ordinal, L ≤ sdata.length → base ≤ ordinal → ordinal < 2 ^ 16 →
      Pe.functionsGuard sdata.length L ordinal = true →
      Pe.funcReadOffset L ordinal base + 4 ≤ sdata.length) := by
  refine ⟨?_, ?_, ?_, ?_, ?_, ?_⟩
  · intro h
    rw [Pe.ordinalsBlock, if_neg h]
  · intro h
    rw [Pe.namesBlock, if_neg h]
  · intro h
    rw [Pe.functionsBlock, if_neg h]
  · intro L i hL hg hi
    rw [Pe.ordinalsGuard, decide_eq_true_eq, subSizeT_eq sdata.length L hL hsz] at hg
    omega
  · intro N i hN hg hi
    rw [Pe.namesGuard, decide_eq_true_eq, subSizeT_eq sdata.length N hN hsz] at hg
    omega
  · intro L ordinal hL hbase hord hg
    rw [Pe.functionsGuard, decide_eq_true_eq, subSizeT_eq sdata.length L hL hsz] at hg
    rw [funcReadOffset_eq L ordinal base hbase]
    omega

/-- C7 witness: on an 8-byte section buffer the Functions guard at
ordinal 0, base 0, table offset 0 admits the read and the read stays inside
the buffer. -/
theorem pe_c7_witness :
    Pe.functionsGuard 8 0 0 = true ∧ Pe.funcReadOffset 0 0 0 + 4 ≤ 8 :=
  ⟨by decide,
    (pe_c7_export_reads_in_bounds (List.replicate 8 0) 0 0 0 0 0 0 1 [] (by decide)).2.2.2.2.2
      0 0 (by simp) (by omega) (by omega) (by decide)⟩

/-! ## C4 — the two-pass EOCD scan -/

theorem findDirectoryEnd_first (f : List Nat) (p : Nat)
    (h : Zip.findSignatureInBlock (lastSlice f (min 1024 f.length)) = (p : Int)) :
    Zip.findDirectoryEnd f =
      some (f.length - min 1024 f.length + p, (lastSlice f (min 1024 f.length)).drop p) := by
  rw [Zip.findDirectoryEnd]
  dsimp only
  rw [h, if_pos (Int.ofNat_nonneg p)]
  simp

theorem findDirectoryEnd_small_none (f : List Nat)
    (h1 : Zip.findSignatureInBlock (lastSlice f (min 1024 f.length)) = -1)
    (h2 : f.length ≤ 1024) : Zip.findDirectoryEnd f = none := by
  rw [Zip.findDirectoryEnd]
  dsimp only
  rw [h1, if_neg (by norm_num), if_pos (by omega : min 1024 f.length = f.length)]

theorem findDirectoryEnd_second (f : List Nat) (p : Nat)
    (h1 : Zip.findSignatureInBlock (lastSlice f (min 1024 f.length)) = -1)
    (h2 : 1024 < f.length)
    (h3 : Zip.findSignatureInBlock (lastSlice f (min (65 * 1024) f.length)) = (p : Int)) :
    Zip.findDirectoryEnd f =
      some (f.length - min (65 * 1024) f.length + p,
        (lastSlice f (min (65 * 1024) f.length)).drop p) := by
  rw [Zip.findDirectoryEnd]
  dsimp only
  rw [h1, if_neg (by norm_num), if_neg (by omega : ¬ min 1024 f.length = f.length)]
  rw [h3, if_pos (Int.ofNat_nonneg p)]
  simp

theorem findDirectoryEnd_none (f : List Nat)
    (h1 : Zip.findSignatureInBlock (lastSlice f (min 1024 f.length)) = -1)
    (h2 : Zip.findSignatureInBlock (lastSlice f (min (65 * 1024) f.length)) = -1) :
    Zip.findDirectoryEnd f = none := by
  rw [Zip.findDirectoryEnd]
  dsimp only
  rw [h1, if_neg (by norm_num)]
  by_cases hb : min 1024 f.length = f.length
  · rw [if_pos hb]
  · rw [if_neg hb, h2, if_neg (by norm_num)]

theorem readDirectoryEnd_locate_fail (f : List Nat) (junk : Nat)
    (h : Zip.findDirectoryEnd f = none) :
    Zip.readDirectoryEnd f junk = .error .notValid := by
  rw [Zip.readDirectoryEnd, h]

/-- C4 (amended): the EOCD locator scans the last `min(1024, size)` bytes
first and uses a validated signature found there; only when that pass finds
none and the file is larger than 1 KiB does it scan the last
`min(65 * 1024, size)` bytes — 65 KiB, not 64 KiB — and use a signature
found there; when the signature is absent from both windows (or from a file
no larger than 1 KiB) the decoder fails with the format error. -/
theorem zip_c4_two_pass_scan (f : List Nat) :
    (∀ p : Nat, Zip.findSignatureInBlock (lastSlice f (min 1024 f.length)) = (p : Int) →
      Zip.findDirectoryEnd f =
        some (f.length - min 1024 f.length + p, (lastSlice f (min 1024 f.length)).drop p)) ∧
    (Zip.findSignatureInBlock (lastSlice f (min 1024 f.length)) = -1 → f.length ≤ 1024 →
      Zip.findDirectoryEnd f = none) ∧
    (Zip.findSignatureInBlock (lastSlice f (min 1024 f.length)) = -1 → 1024 < f.length →
      ∀ p : Nat, Zip.findSignatureInBlock (lastSlice f (min (65 * 1024) f.length)) = (p : Int) →
      Zip.findDirectoryEnd f =
        some (f.length - min (65 * 1024) f.length + p,
          (lastSlice f (min (65 * 1024) f.length)).drop p)) ∧
    (Zip.findSignatureInBlock (lastSlice f (min 1024 f.length)) = -1 →
      Zip.findSignatureInBlock (lastSlice f (min (65 * 1024) f.length)) = -1 →
      Zip.findDirectoryEnd f = none) ∧
    (∀ junk, Zip.findDirectoryEnd f = none →
      Zip.readDirectoryEnd f junk = .error .notValid) :=
  ⟨fun p h => findDirectoryEnd_first f p h,
    fun h1 h2 => findDirectoryEnd_small_none f h1 h2,
    fun h1 h2 p h3 => findDirectoryEnd_second f p h1 h2 h3,
    fun h1 h2 => findDirectoryEnd_none f h1 h2,
    fun junk h => readDirectoryEnd_locate_fail f junk h⟩

theorem getD_replicate_zero (n i : Nat) : (List.replicate n (0 : Nat)).getD i 0 = 0 := by
  simp [List.getD]

theorem exC4_length : exC4.length = 66560 := by
  rw [exC4, List.length_append, List.length_replicate]
  rfl

theorem exC4_byteAt_eq_zero (j : Nat) (h : 4 ≤ j) : byteAt exC4 j = 0 := by
  rw [exC4, byteAt, List.getD_append_right _ _ _ _ (by simpa using h)]
  rw [getD_replicate_zero]

theorem exC4_byteAt_ne_80 (j : Nat) (h : 1 ≤ j) : byteAt exC4 j ≠ 80 := by
  rcases j with _ | _ | _ | _ | j
  · omega
  · decide
  · decide
  · decide
  · rw [exC4_byteAt_eq_zero (j + 4) (by omega)]
    omega

theorem exC4_first_pass_empty :
    Zip.findSignatureInBlock (lastSlice exC4 (min 1024 exC4.length)) = -1 := by
  have hmin : min 1024 exC4.length = 1024 := by
    rw [exC4_length]
    decide
  have hlen : (lastSlice exC4 (min 1024 exC4.length)).length = 1024 := by
    rw [hmin, lastSlice, List.length_drop, exC4_length]
  rw [Zip.findSignatureInBlock, if_neg (by omega), hlen]
  apply Zip.findSigFrom_none
  intro j hj
  rw [hmin, lastSlice, exC4_length, byteAt_drop]
  exact exC4_byteAt_ne_80 _ (by omega)

theorem exC4_last64K_empty :
    Zip.findSignatureInBlock (exC4.drop (exC4.length - 65536)) = -1 := by
  have hlen : (exC4.drop (exC4.length - 65536)).length = 65536 := by
    rw [List.length_drop, exC4_length]
  rw [Zip.findSignatureInBlock, if_neg (by omega), hlen]
  apply Zip.findSigFrom_none
  intro j hj
  rw [exC4_length, byteAt_drop]
  exact exC4_byteAt_ne_80 _ (by omega)

theorem exC4_whole_file_sig :
    Zip.findSignatureInBlock exC4 = ((0 : Nat) : Int) := by
  have hcond : (Zip.sigAt exC4 0 && Zip.commentLenOk exC4 0) = true := by
    rw [Bool.and_eq_true]
    constructor
    · decide
    · rw [Zip.commentLenOk, exC4_byteAt_eq_zero 20 (by omega),
        exC4_byteAt_eq_zero 21 (by omega), exC4_length]
      decide
  rw [Zip.findSignatureInBlock, if_neg (by rw [exC4_length]; omega), exC4_length]
  rw [show (66560 : Nat) - 22 = 66538 from rfl]
  rw [Zip.findSigFrom_skip exC4 66538 (fun j h1 h2 => exC4_byteAt_ne_80 j h1)]
  rw [Zip.findSigFrom, if_pos hcond]
  rfl

/-- C4 counterexample: `exC4` is a 66560-byte file whose only (validated)
EOCD signature starts 65 * 1024 bytes from the end — the last 1 KiB and even
the last 64 KiB (65536 bytes) contain no signature — yet the locator finds
it on the second pass and succeeds, where the claim's "last 64 KiB" scan
would have to fail with FormatError. -/
theorem zip_c4_counterexample :
    exC4.length = 66560 ∧
    Zip.findSignatureInBlock (lastSlice exC4 (min 1024 exC4.length)) = -1 ∧
    Zip.findSignatureInBlock (exC4.drop (exC4.length - 65536)) = -1 ∧
    Zip.findDirectoryEnd exC4 = some (0, exC4) := by
  refine ⟨exC4_length, exC4_first_pass_empty, exC4_last64K_empty, ?_⟩
  have hmin : min (65 * 1024) exC4.length = 66560 := by
    rw [exC4_length]
    decide
  have hsig : Zip.findSignatureInBlock (lastSlice exC4 (min (65 * 1024) exC4.length)) =
      ((0 : Nat) : Int) := by
    rw [hmin, lastSlice, exC4_length, Nat.sub_self, List.drop_zero]
    exact exC4_whole_file_sig
  have h := findDirectoryEnd_second exC4 0 exC4_first_pass_empty
    (by rw [exC4_length]; omega) hsig
  rw [h, hmin, lastSlice, exC4_length, Nat.sub_self, List.drop_zero]
  simp

/-! ## C1 — Zip64 escalation of the directory-end decode -/

theorem directoryEndOffsetBad_false (d : Zip.DirectoryEnd) (size : Nat)
    (h1 : d.directoryOffset < 2 ^ 63) (h2 : 0 < size) :
    Zip.directoryEndOffsetBad d size = false := by
  have hnn := toInt64_nonneg d.directoryOffset h1
  rw [Zip.directoryEndOffsetBad]
  simp only [Bool.or_eq_false_iff, decide_eq_false_iff_not]
  constructor
  · omega
  · simp
    omega

theorem readDirectory64End_fields (f : List Nat) (offset : Int) (junk : Nat)
    (d d2 : Zip.DirectoryEnd) (h : Zip.readDirectory64End f offset junk d = some d2) :
    d2.directoryRecords = le64 (slice f offset.toNat 56) 36 ∧
    d2.directorySize = le64 (slice f offset.toNat 56) 44 ∧
    d2.directoryOffset = le32 (slice f offset.toNat 56) 52 + 2 ^ 32 * junk := by
  rw [Zip.readDirectory64End] at h
  split at h
  · cases h
  · dsimp only at h
    split at h
    · cases h
    · cases h
      exact ⟨rfl, rfl, rfl⟩

/-- C1 (amended): after `readDirectoryEnd` locates the EOCD and decodes its
fields, the Zip64 path is consulted exactly under the condition of
zip.cc:160 — entry count = 0xFFFF, or directory size = 0xFFFF (not the
32-bit sentinel 0xFFFFFFFF), or directory offset = 0xFFFFFFFF.  When that
condition is false the decode succeeds with exactly the EOCD's 16/32-bit
values (the Zip64 record is not consulted); when it is true but no valid
locator precedes the EOCD the EOCD values also stand; and when it is true
and the locator yields a readable Zip64 end record, the record's values
supersede the EOCD's — with each 64-bit field read 4 bytes past its nominal
position in the 56-byte record (`Discard(16)` after the 4-byte signature),
the entry count coming from record bytes 36..44 and the directory size from
bytes 44..52.  An unreadable Zip64 record (out of range or bad signature)
fails the whole decode. -/
theorem zip_c1_zip64_escalation (f : List Nat) (junk deo : Nat) (b : List Nat)
    (hfind : Zip.findDirectoryEnd f = some (deo, b)) :
    (Zip.zip64Trigger (Zip.eocdRecord b) = false →
      Zip.readDirectoryEnd f junk = .ok (Zip.eocdRecord b)) ∧
    (Zip.zip64Trigger (Zip.eocdRecord b) = true →
      Zip.findDirectory64End f deo ≤ 0 →
      Zip.readDirectoryEnd f junk = .ok (Zip.eocdRecord b)) ∧
    (∀ (p : Int) (d2 : Zip.DirectoryEnd),
      Zip.zip64Trigger (Zip.eocdRecord b) = true →
      Zip.findDirectory64End f deo = p → 0 < p →
      Zip.readDirectory64End f p junk (Zip.eocdRecord b) = some d2 → junk < 2 ^ 31 →
      Zip.readDirectoryEnd f junk = .ok d2 ∧
      d2.directoryRecords = le64 (slice f p.toNat 56) 36 ∧
      d2.directorySize = le64 (slice f p.toNat 56) 44) ∧
    (Zip.zip64Trigger (Zip.eocdRecord b) = true →
      0 < Zip.findDirectory64End f deo →
      Zip.readDirectory64End f (Zip.findDirectory64End f deo) junk (Zip.eocdRecord b) = none →
      Zip.readDirectoryEnd f junk = .error .notValid) := by
  have hok := Zip.findDirectoryEnd_ok f deo b hfind
  have hcomment : ¬ (Zip.eocdRecord b).commentLen > b.length - 22 := by
    have hc : (Zip.eocdRecord b).commentLen = le16 b 20 := rfl
    omega
  have hsize : 0 < f.length := by omega
  have hd0lt : (Zip.eocdRecord b).directoryOffset < 2 ^ 63 := by
    have hc : (Zip.eocdRecord b).directoryOffset = le32 b 16 := rfl
    have := le32_lt b 16
    omega
  refine ⟨?_, ?_, ?_, ?_⟩
  · intro htrig
    rw [Zip.readDirectoryEnd, hfind]
    dsimp only
    rw [if_neg hcomment, htrig, if_neg (by decide : ¬ ((false : Bool) = true))]
    dsimp only
    rw [directoryEndOffsetBad_false _ _ hd0lt hsize,
      if_neg (by decide : ¬ ((false : Bool) = true))]
  · intro htrig hp
    rw [Zip.readDirectoryEnd, hfind]
    dsimp only
    rw [if_neg hcomment, htrig, if_pos (show (true : Bool) = true from rfl)]
    rw [if_neg (by omega : ¬ Zip.findDirectory64End f deo > 0)]
    dsimp only
    rw [directoryEndOffsetBad_false _ _ hd0lt hsize,
      if_neg (by decide : ¬ ((false : Bool) = true))]
  · intro p d2 htrig hp hppos hread hjunk
    have hfields := readDirectory64End_fields f p junk (Zip.eocdRecord b) d2 hread
    refine ⟨?_, hfields.1, hfields.2.1⟩
    rw [Zip.readDirectoryEnd, hfind]
    dsimp only
    rw [if_neg hcomment, htrig, if_pos (show (true : Bool) = true from rfl)]
    rw [hp, if_pos hppos, hread]
    dsimp only
    have hd2lt : d2.directoryOffset < 2 ^ 63 := by
      have h1 := hfields.2.2
      have h2 := le32_lt (slice f p.toNat 56) 52
      omega
    rw [directoryEndOffsetBad_false _ _ hd2lt hsize,
      if_neg (by decide : ¬ ((false : Bool) = true))]
  · intro htrig hppos hread
    rw [Zip.readDirectoryEnd, hfind]
    dsimp only
    rw [if_neg hcomment, htrig, if_pos (show (true : Bool) = true from rfl)]
    rw [if_pos hppos, hread]

/-- C1 witness: an archive with no sentinel-valued EOCD field decodes to
exactly the EOCD's own values, by the amended theorem. -/
theorem zip_c1_witness :
    Zip.zip64Trigger (Zip.eocdRecord exEOCD22) = false ∧
    Zip.readDirectoryEnd exEOCD22 0 = .ok (Zip.eocdRecord exEOCD22) :=
  ⟨by decide, (zip_c1_zip64_escalation exEOCD22 0 0 exEOCD22 (by decide)).1 (by decide)⟩

/-- C1 counterexample: in `exC1` the EOCD's 32-bit directory-size field
holds its format sentinel 0xFFFFFFFF, a valid Zip64 locator (signature
0x07064b50, disk fields 0 and 1) immediately precedes the EOCD, and it
points at a valid Zip64 end record (signature 0x06064b50) whose 64-bit
directory-size field is 42 — yet the decoder returns directorySize =
0xFFFFFFFF: the sentinel is kept and the Zip64 record is never consulted,
because zip.cc:160 compares the directory size against 0xFFFF, not
0xFFFFFFFF. -/
theorem zip_c1_counterexample :
    le32 exC1 88 = 0xFFFFFFFF ∧
    le32 exC1 56 = 0x07064b50 ∧ le32 exC1 60 = 0 ∧ le64 exC1 64 = 0 ∧ le32 exC1 72 = 1 ∧
    le32 exC1 0 = 0x06064b50 ∧ le64 exC1 40 = 42 ∧
    Zip.readDirectoryEnd exC1 0 = .ok
      { diskNbr := 0, dirDiskNbr := 0, dirRecordsThisDisk := 1, directoryRecords := 1,
        directorySize := 4294967295, directoryOffset := 0, commentLen := 0, comment := [] } := by
  decide

end Abslw
